import Mathlib

/-!
Verification development for the Control batch-file-processing component
(rule parsing, discovery-response extraction, instruction-template
synthesis with retry, and the task-orchestration state machine).

Strings are embedded as `List Char` (`String.data` of the TypeScript
values), and every string primitive used by the code (split, trim,
startsWith, includes, endsWith, replace of the concrete regexes) is given
an executable structural definition below, so that all statements can be
evaluated on concrete inputs.
-/

set_option autoImplicit false

deriving instance DecidableEq for Except

namespace Control

/-- Whitespace test used by `trim` / the `\s` regex class (ASCII range). -/
def isWsChar (c : Char) : Bool :=
  c = ' ' || c = '\t' || c = '\n' || c = '\r'

/-- JS trim: drop whitespace from both ends. -/
def trimChars (cs : List Char) : List Char :=
  ((cs.dropWhile isWsChar).reverse.dropWhile isWsChar).reverse

/-- JS split for a single-character separator; splitting the empty
list yields one empty piece, matching JS. -/
def splitOnChar (c : Char) : List Char → List (List Char)
  | [] => [[]]
  | x :: xs =>
    if x = c then [] :: splitOnChar c xs
    else
      match splitOnChar c xs with
      | [] => [[x]]
      | l :: ls => (x :: l) :: ls

/-- JS startsWith on char lists. -/
def hasPrefixL : List Char → List Char → Bool
  | [], _ => true
  | _ :: _, [] => false
  | p :: ps, c :: cs => p = c && hasPrefixL ps cs

/-- JS includes on char lists (substring search). -/
def hasInfixL (pat : List Char) : List Char → Bool
  | [] => hasPrefixL pat []
  | c :: cs => hasPrefixL pat (c :: cs) || hasInfixL pat cs

/-- JS endsWith on char lists. -/
def hasSuffixL (pat cs : List Char) : Bool :=
  hasPrefixL pat.reverse cs.reverse

/-! ### RuleParser (`ruleParser.ts`, `parseRules`, lines 8-30) -/

/-- Transient result of rule parsing (`ParsedRules` in `types`). -/
structure ParsedRules where
  isRuleMode : Bool
  discoveryRule : Option (List Char) := none
  processingRule : Option (List Char) := none
  originalPrompt : Option (List Char) := none
deriving DecidableEq

/-- Function parseRules (ruleParser.ts lines 8-30): split the input on newlines,
trim each line, look for the first line starting with the discovery
marker `#` and the first starting with the processing marker `$`.  Both
found: Rule Mode, each rule is that line with its marker removed and
re-trimmed.  Otherwise Legacy Mode with the raw input as the prompt.
(A found line necessarily starts with the marker, hence is nonempty, so
the JS truthiness test on the found lines equals the `some`/`none` test.) -/
def parseRules (input : List Char) : ParsedRules :=
  let lines := (splitOnChar '\n' input).map trimChars
  match lines.find? (hasPrefixL ['#']), lines.find? (hasPrefixL ['$']) with
  | some discoveryLine, some processingLine =>
    { isRuleMode := true
      discoveryRule := some (trimChars (discoveryLine.drop 1))
      processingRule := some (trimChars (processingLine.drop 1)) }
  | _, _ =>
    { isRuleMode := false, originalPrompt := some input }

/-! ### ResponseExtractor, strategy 4
(`ruleParser.ts`, `extractFileListFromResponse`, lines 97-131: the
line-by-line heuristic that runs when the JSON-array, fenced-block and
bullet-list strategies produced nothing). -/

/-- The fixed extension set of the regex
`\.(ts|tsx|js|jsx|py|java|go|rs|cpp|c|h|css|scss|html|vue|json|yaml|yml|md|txt)$` -/
def recognizedExtensions : List (List Char) :=
  ["ts", "tsx", "js", "jsx", "py", "java", "go", "rs", "cpp", "c", "h",
   "css", "scss", "html", "vue", "json", "yaml", "yml", "md", "txt"].map String.data

/-- The `/i`-flagged anchored extension regex: the lowercased line ends
in a dot followed by one of the recognized extensions. -/
def endsWithRecognizedExt (cs : List Char) : Bool :=
  recognizedExtensions.any (fun e => hasSuffixL ('.' :: e) (cs.map Char.toLower))

/-- The skip test of strategy 4 (lines 102-110): blank, longer than 300
characters, containing the literal substrings for the Chinese word for
file or the capitalized English word File, or starting with a
line-comment or quote marker. -/
def isSkippedLine (t : List Char) : Bool :=
  t.isEmpty || decide (300 < t.length) ||
  hasInfixL "文件".data t || hasInfixL "File".data t ||
  hasPrefixL "//".data t || hasPrefixL "#".data t || hasPrefixL ">".data t

/-- The keep test of strategy 4 (lines 115-119): contains a path
separator (forward or backward slash) or ends in a recognized extension. -/
def looksLikePathLine (t : List Char) : Bool :=
  t.contains '/' || t.contains '\\' || endsWithRecognizedExt t

/-- Strip a leading ordinal (the regex: start anchor, digits, a dot or
closing parenthesis, then whitespace), as in line 122 of the source. -/
def stripOrdinal (cs : List Char) : List Char :=
  let ds := cs.takeWhile Char.isDigit
  let rest := cs.dropWhile Char.isDigit
  if ds.isEmpty then cs
  else
    match rest with
    | c :: rest2 => if c = '.' || c = ')' then rest2.dropWhile isWsChar else cs
    | [] => cs

/-- The three quote characters of the regex class (double quote, single
quote, backtick), written via their code points. -/
def isQuoteChar (c : Char) : Bool :=
  c = Char.ofNat 34 || c = Char.ofNat 39 || c = Char.ofNat 96

/-- Remove one leading and one trailing quote character when present
(the global anchored quote-class replace of line 123). -/
def stripQuotes (cs : List Char) : List Char :=
  let cs1 :=
    match cs with
    | c :: rest => if isQuoteChar c then rest else cs
    | [] => []
  match cs1.reverse with
  | c :: rest => if isQuoteChar c then rest.reverse else cs1
  | [] => cs1

/-- Lines 121-124: the kept value is the trimmed line with the leading
ordinal stripped, then the surrounding quote characters, then re-trimmed. -/
def cleanPathLine (t : List Char) : List Char :=
  trimChars (stripQuotes (stripOrdinal t))

/-- One line of strategy 4 of `extractFileListFromResponse` (lines
99-128): trim the line, drop it when the skip test fires, keep it when
the keep test fires and the cleaned value is nonempty. -/
def strategy4Line (line : List Char) : Option (List Char) :=
  let t := trimChars line
  if isSkippedLine t then none
  else if looksLikePathLine t then
    let c := cleanPathLine t
    if c.isEmpty then none else some c
  else none

/-- Strategy 4 over the whole response (lines 98-131): split on
newlines, process each line, collect the kept values in order. -/
def extractFileListStrategy4 (response : List Char) : List (List Char) :=
  (splitOnChar '\n' response).filterMap strategy4Line

/-- The line predicate exactly as claim C7 words it: identical to
`strategy4Line` except that the skip test reads lines containing the
lowercase word file (together with the Chinese word), instead of the
case-sensitive capitalized File that the code tests. -/
def claimSkippedLine (t : List Char) : Bool :=
  t.isEmpty || decide (300 < t.length) ||
  hasInfixL "file".data t || hasInfixL "文件".data t ||
  hasPrefixL "//".data t || hasPrefixL "#".data t || hasPrefixL ">".data t

/-- Strategy 4 per line, as claim C7 states it (lowercase file skip). -/
def claimStrategy4Line (line : List Char) : Option (List Char) :=
  let t := trimChars line
  if claimSkippedLine t then none
  else if looksLikePathLine t then
    let c := cleanPathLine t
    if c.isEmpty then none else some c
  else none

/-- The amended skip rules, stated from the corrected spec sentence:
blank lines, lines longer than 300 characters, lines containing the
Chinese word for file or the capitalized English word File
(case-sensitively), and lines starting with the comment or quote
markers. -/
def amendedSkipRules : List (List Char → Bool) :=
  [fun t => t.isEmpty,
   fun t => decide (300 < t.length),
   fun t => hasInfixL "文件".data t,
   fun t => hasInfixL "File".data t,
   fun t => hasPrefixL "//".data t,
   fun t => hasPrefixL "#".data t,
   fun t => hasPrefixL ">".data t]

/-- Strategy 4 per line as the amended claim describes it: skip when any
amended skip rule fires; keep a remaining line exactly when it contains
a path separator or ends in a recognized extension, the kept value being
the line with ordinal and quotes stripped (and dropped when that leaves
nothing). -/
def amendedStrategy4Line (line : List Char) : Option (List Char) :=
  let t := trimChars line
  if amendedSkipRules.any (fun r => r t) then none
  else if looksLikePathLine t then
    let c := cleanPathLine t
    if c.isEmpty then none else some c
  else none

/-! ### TemplateSynthesizer (`controlService.ts`)

The completion transport is abstracted as `op : Nat → Except E A`, the
outcome of the attempt with the given zero-based index.  `callWithRetry`
returns both the final outcome and the ordered list of waits it
performed: the element at position k is the delay waited before attempt
k+1.  A final outcome of `Except.error (some e)` models re-throwing the
last captured error e; `Except.error none` models the fresh generic
error thrown when no attempt ran at all (maxRetries = 0). -/

/-- Loop body of `callWithRetry` (controlService.ts lines 512-543),
with the remaining attempt count as structural fuel: the current attempt
runs; on failure, when further attempts remain the exponential delay
(initialDelay times 2 to the attempt index) is recorded and the loop
recurses, otherwise the loop breaks with the captured error and no
trailing wait. -/
def callWithRetryGo {E A : Type} (op : Nat → Except E A) (initialDelay : Nat) :
    Nat → Nat → Except (Option E) A × List Nat
  | _, 0 => (Except.error none, [])
  | attempt, fuel + 1 =>
    match op attempt with
    | Except.ok a => (Except.ok a, [])
    | Except.error e =>
      if fuel = 0 then (Except.error (some e), [])
      else
        let r := callWithRetryGo op initialDelay (attempt + 1) fuel
        (r.1, initialDelay * 2 ^ attempt :: r.2)

/-- Function callWithRetry (controlService.ts lines 505-547): run the
operation up to maxRetries times, waiting the exponential delay between
attempts, and re-throw the last captured error once attempts are
exhausted. -/
def callWithRetry {E A : Type} (op : Nat → Except E A)
    (maxRetries : Nat := 3) (initialDelay : Nat := 1000) :
    Except (Option E) A × List Nat :=
  callWithRetryGo op initialDelay 0 maxRetries

/-- The double-brace file placeholder required in Rule Mode. -/
def filePlaceholder : List Char := "\x7b\x7bfile\x7d\x7d".data

/-- The single-brace filePath placeholder substituted in Legacy Mode. -/
def legacyPlaceholder : List Char := "\x7bfilePath\x7d".data

/-- The fixed Chinese lead-in sentence of Rule Mode self-healing and
fallback, embedding the double-brace placeholder (lines 696 and 711). -/
def ruleModeLeadIn : List Char := "对 \x7b\x7bfile\x7d\x7d 进行以下处理：".data

/-- Function generateInstructionTemplate (controlService.ts lines
553-616), Legacy Mode, reduced to its stored result: the completion
transport is called through callWithRetry with 3 attempts and initial
delay 1000; on success the trimmed model output is stored unchecked; on
exhausted attempts the original user prompt is stored verbatim.  The
second component is the list of waits performed. -/
def generateInstructionTemplate (userPrompt : List Char)
    (op : Nat → Except (List Char) (List Char)) : List Char × List Nat :=
  let r := callWithRetry op 3 1000
  match r.1 with
  | Except.ok template => (trimChars template, r.2)
  | Except.error _ => (userPrompt, r.2)

/-- Function generateInstructionTemplateFromRule (controlService.ts
lines 622-716), Rule Mode, reduced to its stored result: on success the
trimmed model output is stored when it contains the double-brace
placeholder, and is otherwise wrapped with the fixed lead-in sentence;
on exhausted attempts the fallback is the lead-in sentence followed by
the processing rule. -/
def generateInstructionTemplateFromRule (processingRule : List Char)
    (op : Nat → Except (List Char) (List Char)) : List Char × List Nat :=
  let r := callWithRetry op 3 1000
  match r.1 with
  | Except.ok template =>
    let trimmedTemplate := trimChars template
    if hasInfixL filePlaceholder trimmedTemplate then (trimmedTemplate, r.2)
    else (ruleModeLeadIn ++ trimmedTemplate, r.2)
  | Except.error _ => (ruleModeLeadIn ++ processingRule, r.2)

/-! ### TaskOrchestrator (`controlService.ts`, class ControlService)

The mutable service instance is embedded as `ControlState`.  Progress
snapshots pushed through sendProgressUpdate are recorded in an
append-only trace `emitted`, keeping only the aggregate status of each
snapshot (the counters and message are derived data).  The webview
provider is assumed set, as it is on every command path registered by
initControl.  The external conversational runtime reached through
createTask / waitForTaskCompletion is abstracted by an
`ExternalOutcome` parameter describing how the delegation of one
sub-task resolves. -/

/-- Status of one sub-task (`SubTaskStatus` in `types`). -/
inductive SubTaskStatus
  | pending
  | running
  | completed
  | failed
  | cancelled
deriving DecidableEq

/-- Aggregate status of a run (`ControlTaskStatus` in `types`). -/
inductive ControlTaskStatus
  | discoveringFiles
  | parsing
  | generatingTemplate
  | processing
  | completed
  | failed
  | cancelled
deriving DecidableEq

/-- One sub-task record (`SubTask` in `types`).  Ids are embedded as
naturals, timestamps as naturals, the error message as a char list. -/
structure SubTask where
  id : Nat
  filePath : List Char
  status : SubTaskStatus
  enabled : Bool
  startTime : Option Nat := none
  endTime : Option Nat := none
  error : Option (List Char) := none
  taskId : Option Nat := none
deriving DecidableEq

/-- The run configuration (`ControlTaskConfig` in `types`). -/
structure ControlTaskConfig where
  userPrompt : List Char
  targetDirectory : List Char
  files : List (List Char)
  subTasks : List SubTask
  isRuleMode : Bool := false
  instructionTemplate : Option (List Char) := none
deriving DecidableEq

/-- The ControlService instance state: the current run, the processing
guard, the cooperative-cancellation flag, the loop index, and the trace
of aggregate statuses pushed by sendProgressUpdate. -/
structure ControlState where
  currentTask : Option ControlTaskConfig
  isProcessing : Bool
  shouldCancel : Bool
  currentSubTaskIndex : Int
  emitted : List ControlTaskStatus
deriving DecidableEq

/-- How the delegation of one sub-task to the external runtime
resolves: task creation fails; the task is created (with the given
external id) but waiting for completion fails (timeout); or the task is
created and completes. -/
inductive ExternalOutcome
  | createFailed (e : List Char)
  | waitFailed (tid : Nat) (e : List Char)
  | succeeded (tid : Nat)
deriving DecidableEq

/-- The run configuration of a state, projected to its sub-task list. -/
def getSubTasks (s : ControlState) : Option (List SubTask) :=
  s.currentTask.map (fun cfg => cfg.subTasks)

/-- The state without its emission trace: the fields the service
actually stores. -/
def coreOf (s : ControlState) : Option ControlTaskConfig × Bool × Bool × Int :=
  (s.currentTask, s.isProcessing, s.shouldCancel, s.currentSubTaskIndex)

/-- Index of the first sub-task considered for dispatch (line 728):
index 1 in Rule Mode, skipping the discovery slot, index 0 otherwise. -/
def startIdx (cfg : ControlTaskConfig) : Nat :=
  if cfg.isRuleMode then 1 else 0

/-- The schedulable test of the findIndex callback (line 732):
enabled with status PENDING. -/
def isSchedulable (t : SubTask) : Bool :=
  t.enabled && decide (t.status = SubTaskStatus.pending)

/-- The findIndex scan of line 731: the first list index at or after
the start index whose sub-task satisfies the predicate, with the
running index carried as an accumulator. -/
def findNextIdxGo (p : SubTask → Bool) (start : Nat) : Nat → List SubTask → Option Nat
  | _, [] => none
  | i, t :: ts =>
    if decide (start ≤ i) && p t then some i else findNextIdxGo p start (i + 1) ts

/-- The index selected by continueNextTask for the given configuration. -/
def findNextIdx (cfg : ControlTaskConfig) : Option Nat :=
  findNextIdxGo isSchedulable (startIdx cfg) 0 cfg.subTasks

/-- The hasMorePendingTasks rescan of lines 813-815. -/
def hasMorePendingFrom (start : Nat) : Nat → List SubTask → Bool
  | _, [] => false
  | i, t :: ts =>
    (decide (start ≤ i) && isSchedulable t) || hasMorePendingFrom start (i + 1) ts

/-- Function completeAllTasks (lines 835-859): push a COMPLETED
snapshot, then cleanup (clear the processing guard, the loop index and
the cancellation flag; the run configuration is kept for inspection). -/
def completeAllTasks (s : ControlState) : ControlState :=
  match s.currentTask with
  | none => s
  | some _ =>
    { s with emitted := s.emitted ++ [ControlTaskStatus.completed]
             isProcessing := false
             currentSubTaskIndex := -1
             shouldCancel := false }

/-- Resolution of the dispatched sub-task after the delegation returns
(lines 789-799, with the taskId recording of line 1009): completion,
or failure with the captured error; the end time is stamped. -/
def resolveSubTask (o : ExternalOutcome) (now : Nat) (t : SubTask) : SubTask :=
  match o with
  | ExternalOutcome.createFailed e =>
    { t with status := SubTaskStatus.failed, error := some e, endTime := some now }
  | ExternalOutcome.waitFailed tid e =>
    { t with taskId := some tid, status := SubTaskStatus.failed, error := some e,
             endTime := some now }
  | ExternalOutcome.succeeded tid =>
    { t with taskId := some tid, status := SubTaskStatus.completed, endTime := some now }

/-- The PROCESSING snapshot pushed from inside processSingleFile (line
1013) right after the external task is created; absent when creation
itself failed. -/
def midEmits (o : ExternalOutcome) : List ControlTaskStatus :=
  match o with
  | ExternalOutcome.createFailed _ => []
  | _ => [ControlTaskStatus.processing]

/-- Function processSingleTaskAtIndex (lines 749-830): mark the
sub-task at the index RUNNING with its start time, push a PROCESSING
snapshot, delegate (processSingleFile), record the resolution, push the
post-resolution PROCESSING snapshot, and when no enabled PENDING
sub-task remains run the completion sequence, otherwise return to the
caller.  An out-of-range index leaves the state unchanged (the caller
only passes indices produced by the findIndex scan). -/
def processSingleTaskAtIndex (i : Nat) (o : ExternalOutcome) (now : Nat)
    (s : ControlState) : ControlState :=
  match s.currentTask with
  | none => s
  | some cfg =>
    match cfg.subTasks.get? i with
    | none => s
    | some t =>
      let tRunning := { t with status := SubTaskStatus.running, startTime := some now }
      let tFinal := resolveSubTask o now tRunning
      let subTasks2 := cfg.subTasks.set i tFinal
      let s2 :=
        { s with currentTask := some { cfg with subTasks := subTasks2 }
                 emitted := s.emitted ++ [ControlTaskStatus.processing] ++ midEmits o
                            ++ [ControlTaskStatus.processing] }
      if hasMorePendingFrom (startIdx cfg) 0 subTasks2 then s2
      else completeAllTasks s2

/-- Function continueNextTask (lines 721-744): with no current run do
nothing; otherwise dispatch the first enabled PENDING sub-task at or
after the start index, or, when none exists, run the completion
sequence. -/
def continueNextTask (o : ExternalOutcome) (now : Nat) (s : ControlState) : ControlState :=
  match s.currentTask with
  | none => s
  | some cfg =>
    match findNextIdx cfg with
    | none => completeAllTasks s
    | some i => processSingleTaskAtIndex i o now s

/-- Per-sub-task effect of cancelTask (lines 1200-1206): every PENDING
or RUNNING sub-task is forced to CANCELLED, disabled, and stamped with
an end time; other sub-tasks are untouched. -/
def cancelSub (now : Nat) (t : SubTask) : SubTask :=
  if t.status = SubTaskStatus.pending ∨ t.status = SubTaskStatus.running then
    { t with status := SubTaskStatus.cancelled, enabled := false, endTime := some now }
  else t

/-- Function cancelTask (lines 1190-1229): with no current run do
nothing; otherwise force every PENDING or RUNNING sub-task to
CANCELLED, push a CANCELLED snapshot, and cleanup (the cancellation
flag set at entry is cleared again by cleanup, and the run
configuration is kept). -/
def cancelTask (now : Nat) (s : ControlState) : ControlState :=
  match s.currentTask with
  | none => s
  | some cfg =>
    { s with currentTask := some { cfg with subTasks := cfg.subTasks.map (cancelSub now) }
             emitted := s.emitted ++ [ControlTaskStatus.cancelled]
             isProcessing := false
             currentSubTaskIndex := -1
             shouldCancel := false }

/-- The find of line 1133: first sub-task with the given id. -/
def findById (tid : Nat) (ts : List SubTask) : Option SubTask :=
  ts.find? (fun t => decide (t.id = tid))

/-- The sub-task with the given id inside the current run of a state. -/
def findInState (tid : Nat) (s : ControlState) : Option SubTask :=
  s.currentTask.bind (fun cfg => findById tid cfg.subTasks)

/-- Replacement of the first sub-task with the given id (the in-place
object mutation of toggleTaskEnabled). -/
def replaceFirstById (tid : Nat) (t2 : SubTask) : List SubTask → List SubTask
  | [] => []
  | t :: ts => if t.id = tid then t2 :: ts else t :: replaceFirstById tid t2 ts

/-- Function toggleTaskEnabled (lines 1128-1185): on a PENDING enabled
sub-task, disable it (CANCELLED, end time stamped); on a PENDING
disabled or a CANCELLED sub-task, re-enable it (PENDING, enabled, error
and end time cleared); in both cases a PROCESSING snapshot is pushed.
Any other status, a missing id, or no current run: no change at all. -/
def toggleTaskEnabled (tid : Nat) (now : Nat) (s : ControlState) : ControlState :=
  match s.currentTask with
  | none => s
  | some cfg =>
    match findById tid cfg.subTasks with
    | none => s
    | some t =>
      if t.status = SubTaskStatus.pending then
        let t2 :=
          if t.enabled then
            { t with enabled := false, status := SubTaskStatus.cancelled, endTime := some now }
          else
            { t with enabled := true, status := SubTaskStatus.pending, error := none,
                     endTime := none }
        { s with currentTask := some { cfg with subTasks := replaceFirstById tid t2 cfg.subTasks }
                 emitted := s.emitted ++ [ControlTaskStatus.processing] }
      else if t.status = SubTaskStatus.cancelled then
        let t2 := { t with enabled := true, status := SubTaskStatus.pending, error := none,
                           endTime := none }
        { s with currentTask := some { cfg with subTasks := replaceFirstById tid t2 cfg.subTasks }
                 emitted := s.emitted ++ [ControlTaskStatus.processing] }
      else s

/-- Function reset (lines 1276-1282): discard the run and return to
idle (the emission trace is an observation ledger, not service state). -/
def reset (s : ControlState) : ControlState :=
  { currentTask := none
    isProcessing := false
    shouldCancel := false
    currentSubTaskIndex := -1
    emitted := s.emitted }

/-- Function startControlTask (lines 127-180), reduced to its
processing guard: when a run is already being processed the call
returns at once (after a warning toast) with no state change; otherwise
the guard is taken, the cancellation flag cleared, and the body (rule
parsing and the mode branch, abstracted here as `run`) executes. -/
def startControlTask (run : ControlState → ControlState) (s : ControlState) : ControlState :=
  if s.isProcessing then s
  else run { s with isProcessing := true, shouldCancel := false }

/-! ### FileParser (`fileParser.ts`) -/

/-- The last path segment: the characters after the last forward slash
(the separator of the posix path module used on the repo-relative,
slash-normalized paths this code handles). -/
def basenameL (cs : List Char) : List Char :=
  (cs.reverse.takeWhile (fun c => !(c = '/'))).reverse

/-- Embedding of path.extname on the basename: the suffix from the last
dot, except that a dot in first position (a hidden file), a basename
without dots, and the special two-dot basename give the empty
extension. -/
def extnameL (cs : List Char) : List Char :=
  let b := basenameL cs
  if b = "..".data then []
  else
    let afterDot := b.reverse.takeWhile (fun c => !(c = '.'))
    if afterDot.length = b.length then []
    else
      let i := b.length - afterDot.length - 1
      if i = 0 then [] else b.drop i

/-- JS toLowerCase, for the ASCII range the extension lists use. -/
def toLowerL (cs : List Char) : List Char :=
  cs.map Char.toLower

/-- Function filterFilesByExtension (fileParser.ts lines 144-155): an
empty extension list returns the file list unchanged; otherwise the
extensions are lowercased and a file is kept exactly when its lowercased
extname is among them. -/
def filterFilesByExtension (files : List (List Char)) (extensions : List (List Char)) :
    List (List Char) :=
  if extensions.isEmpty then files
  else
    let normalizedExtensions := extensions.map toLowerL
    files.filter (fun file => normalizedExtensions.contains (toLowerL (extnameL file)))

/-! ### Sample states used by concrete witnesses and counterexamples -/

/-- A single schedulable sub-task. -/
def sampleTask : SubTask :=
  { id := 1, filePath := "a.ts".data, status := SubTaskStatus.pending, enabled := true }

/-- A Legacy Mode run configuration with one pending sub-task. -/
def sampleCfg : ControlTaskConfig :=
  { userPrompt := "p".data, targetDirectory := [], files := ["a.ts".data]
    subTasks := [sampleTask], isRuleMode := false, instructionTemplate := some "p".data }

/-- An active run holding `sampleCfg`. -/
def sampleState : ControlState :=
  { currentTask := some sampleCfg, isProcessing := true, shouldCancel := false
    currentSubTaskIndex := -1, emitted := [] }

end Control


namespace Control

/-! ### Helper lemmas -/

/-- A pattern starting a list also starts any right extension of it. -/
theorem hasPrefixL_append (pat a b : List Char) (h : hasPrefixL pat a = true) :
    hasPrefixL pat (a ++ b) = true := by
  induction pat generalizing a with
  | nil => rfl
  | cons p ps ih =>
    cases a with
    | nil => simp [hasPrefixL] at h
    | cons c cs =>
      simp only [hasPrefixL, Bool.and_eq_true, decide_eq_true_eq] at h
      simp only [List.cons_append, hasPrefixL, Bool.and_eq_true, decide_eq_true_eq]
      exact ⟨h.1, ih cs h.2⟩

/-- The empty pattern is an infix of every list. -/
theorem hasInfixL_nil (cs : List Char) : hasInfixL [] cs = true := by
  induction cs with
  | nil => rfl
  | cons c cs ih => simp [hasInfixL, hasPrefixL, ih]

/-- An infix of a list is an infix of any right extension of it. -/
theorem hasInfixL_append_left (pat a b : List Char) (h : hasInfixL pat a = true) :
    hasInfixL pat (a ++ b) = true := by
  induction a with
  | nil =>
    cases pat with
    | nil => exact hasInfixL_nil b
    | cons p ps => simp [hasInfixL, hasPrefixL] at h
  | cons c cs ih =>
    simp only [hasInfixL, Bool.or_eq_true] at h
    simp only [List.cons_append, hasInfixL, Bool.or_eq_true]
    rcases h with h1 | h2
    · exact Or.inl (hasPrefixL_append pat (c :: cs) b h1)
    · exact Or.inr (ih h2)

/-- The indexed findIndex scan finds nothing when the predicate holds
nowhere in the list. -/
theorem findNextIdxGo_none_of (p : SubTask → Bool) (start : Nat) (ts : List SubTask)
    (h : ∀ t ∈ ts, p t = false) : ∀ i, findNextIdxGo p start i ts = none := by
  induction ts with
  | nil => intro i; rfl
  | cons t ts ih =>
    intro i
    have ht : p t = false := h t (List.mem_cons_self t ts)
    have hrest : ∀ u ∈ ts, p u = false := fun u hu => h u (List.mem_cons_of_mem t hu)
    simp only [findNextIdxGo, ht, Bool.and_false, Bool.false_eq_true, if_false]
    exact ih hrest (i + 1)

/-- Soundness of the indexed findIndex scan: a found index is at or
after both the running index and the start index, lands inside the
list, satisfies the predicate there, and is the least such position. -/
theorem findNextIdxGo_some (p : SubTask → Bool) (start : Nat) (ts : List SubTask) :
    ∀ i j, findNextIdxGo p start i ts = some j →
      i ≤ j ∧ start ≤ j ∧ j - i < ts.length ∧
      (∀ t, ts.get? (j - i) = some t → p t = true) ∧
      (∀ k t, i ≤ k → start ≤ k → k < j → ts.get? (k - i) = some t → p t = false) := by
  induction ts with
  | nil => intro i j h; exact absurd h (by simp [findNextIdxGo])
  | cons t ts ih =>
    intro i j h
    simp only [findNextIdxGo] at h
    by_cases hc : (decide (start ≤ i) && p t) = true
    · rw [if_pos hc] at h
      injection h with hj
      subst hj
      simp only [Bool.and_eq_true, decide_eq_true_eq] at hc
      refine ⟨Nat.le_refl i, hc.1, by simp, ?_, ?_⟩
      · intro u hu
        simp only [Nat.sub_self, List.get?] at hu
        injection hu with hu
        exact hu ▸ hc.2
      · intro k u hik _ hki _
        exact absurd (Nat.lt_of_le_of_lt hik hki) (Nat.lt_irrefl i)
    · rw [if_neg hc] at h
      obtain ⟨h1, h2, h3, h4, h5⟩ := ih (i + 1) j h
      have hij : i < j := Nat.lt_of_lt_of_le (Nat.lt_succ_self i) h1
      refine ⟨Nat.le_of_lt hij, h2, ?_, ?_, ?_⟩
      · simp only [List.length_cons]
        omega
      · intro u hu
        have hsub : j - i = (j - (i + 1)) + 1 := by omega
        rw [hsub] at hu
        exact h4 u hu
      · intro k u hik hsk hkj hu
        rcases Nat.eq_or_lt_of_le hik with hk | hk
        · subst hk
          simp only [Nat.sub_self, List.get?] at hu
          have hut : t = u := by injection hu
          simp only [Bool.and_eq_true, decide_eq_true_eq, not_and] at hc
          cases hpt : p t
          · rw [← hut]; exact hpt
          · exact absurd hpt (hc hsk)
        · have hsub : k - i = (k - (i + 1)) + 1 := by omega
          rw [hsub] at hu
          exact h5 k u hk hsk hkj hu

/-- Reading a list at the position just overwritten yields the new
element. -/
theorem get?_set_self {α : Type} (l : List α) (i : Nat) (a : α) (h : i < l.length) :
    (l.set i a).get? i = some a := by
  induction l generalizing i with
  | nil => simp at h
  | cons x xs ih =>
    cases i with
    | zero => rfl
    | succ n =>
      simp only [List.set, List.get?]
      exact ih n (by simpa using h)

/-- Reading a list away from the overwritten position is unchanged. -/
theorem get?_set_other {α : Type} (l : List α) (i j : Nat) (a : α) (h : j ≠ i) :
    (l.set i a).get? j = l.get? j := by
  induction l generalizing i j with
  | nil => rfl
  | cons x xs ih =>
    cases i with
    | zero =>
      cases j with
      | zero => exact absurd rfl h
      | succ m => rfl
    | succ n =>
      cases j with
      | zero => rfl
      | succ m =>
        simp only [List.set, List.get?]
        exact ih n m (fun heq => h (by rw [heq]))

/-- A sub-task touched by the cancellation sweep is never schedulable:
a PENDING or RUNNING one is forced to CANCELLED and disabled, and any
other already had a status other than PENDING. -/
theorem isSchedulable_cancelSub (now : Nat) (t : SubTask) :
    isSchedulable (cancelSub now t) = false := by
  unfold cancelSub isSchedulable
  by_cases h : t.status = SubTaskStatus.pending ∨ t.status = SubTaskStatus.running
  · rw [if_pos h]; rfl
  · rw [if_neg h]
    have : t.status ≠ SubTaskStatus.pending := fun hp => h (Or.inl hp)
    simp [this]

/-- Finding by id after replacing the first sub-task with that id
returns the replacement. -/
theorem findById_replaceFirstById (tid : Nat) (t2 : SubTask) (ts : List SubTask)
    (hsome : (findById tid ts).isSome = true) (hid : t2.id = tid) :
    findById tid (replaceFirstById tid t2 ts) = some t2 := by
  induction ts with
  | nil => simp [findById] at hsome
  | cons u us ih =>
    by_cases hu : u.id = tid
    · simp [replaceFirstById, findById, List.find?, hu, hid]
    · simp only [replaceFirstById, if_neg hu]
      have hd : decide (u.id = tid) = false := by simp [hu]
      simp only [findById, List.find?, hd] at hsome ⊢
      exact ih hsome

/-- A sub-task found by id carries that id. -/
theorem findById_id (tid : Nat) (ts : List SubTask) (t : SubTask)
    (h : findById tid ts = some t) : t.id = tid := by
  have := List.find?_some h
  simpa using this

end Control

namespace Control

/-! ### Claim theorems -/

/-- C2: for an operation passed to callWithRetry with maxRetries 3 and
initial delay 1000, failing on the first two attempts and succeeding on
the third returns the success value having waited 1000 then 2000
milliseconds (the recorded wait at position k precedes attempt k+1);
failing on all three attempts re-throws the last captured error, the
wait list still being [1000, 2000]: no wait follows the final failed
attempt. -/
theorem callWithRetry_two_failures_spec {E A : Type} (op : Nat → Except E A)
    (v : A) (e0 e1 e2 : E) :
    (op 0 = Except.error e0 → op 1 = Except.error e1 → op 2 = Except.ok v →
      callWithRetry op 3 1000 = (Except.ok v, [1000, 2000])) ∧
    (op 0 = Except.error e0 → op 1 = Except.error e1 → op 2 = Except.error e2 →
      callWithRetry op 3 1000 = (Except.error (some e2), [1000, 2000])) := by
  constructor
  · intro h0 h1 h2
    simp [callWithRetry, callWithRetryGo, h0, h1, h2]
  · intro h0 h1 h2
    simp [callWithRetry, callWithRetryGo, h0, h1, h2]

/-- C2 witness: a concrete operation failing twice then succeeding. -/
theorem callWithRetry_two_failures_spec_witness :
    callWithRetry (fun n => if n < 2 then Except.error "boom".data else Except.ok 42) 3 1000
      = (Except.ok 42, [1000, 2000]) :=
  (callWithRetry_two_failures_spec
    (fun n => if n < 2 then Except.error "boom".data else Except.ok 42)
    42 "boom".data "boom".data "boom".data).1 rfl rfl rfl

/-- C4 counterexample: with a completion transport failing on every
attempt, template synthesis waits exactly [1000, 2000]: there are three
attempts, only two retries, and a 4000 millisecond backoff delay never
occurs, contradicting the claimed 1s, 2s, 4s schedule. -/
theorem template_retry_delays_counterexample :
    (generateInstructionTemplate "p".data (fun _ => Except.error "transient".data)).2
        = [1000, 2000] ∧
    ¬ 4000 ∈ (generateInstructionTemplate "p".data (fun _ => Except.error "transient".data)).2 ∧
    (generateInstructionTemplate "p".data (fun _ => Except.error "transient".data)).2
        ≠ [1000, 2000, 4000] := by
  decide

/-- C4 amended: when the completion transport fails on every attempt,
template synthesis performs 3 attempts with backoff waits of 1s and 2s
(no trailing wait) and never surfaces the failure: Legacy Mode falls
back to the original prompt verbatim and Rule Mode to the fixed lead-in
sentence followed by the rule text. -/
theorem templateSynthesis_fallback (userPrompt processingRule : List Char)
    (op : Nat → Except (List Char) (List Char)) (e : Nat → List Char)
    (h : ∀ n, op n = Except.error (e n)) :
    generateInstructionTemplate userPrompt op = (userPrompt, [1000, 2000]) ∧
    generateInstructionTemplateFromRule processingRule op
      = (ruleModeLeadIn ++ processingRule, [1000, 2000]) := by
  have hr : callWithRetry op 3 1000 = (Except.error (some (e 2)), [1000, 2000]) := by
    simp [callWithRetry, callWithRetryGo, h 0, h 1, h 2]
  constructor
  · simp [generateInstructionTemplate, hr]
  · simp [generateInstructionTemplateFromRule, hr]

/-- C4 amended witness: a concrete always-failing transport. -/
theorem templateSynthesis_fallback_witness :
    generateInstructionTemplate "p".data (fun _ => Except.error "x".data)
      = ("p".data, [1000, 2000]) :=
  (templateSynthesis_fallback "p".data "r".data (fun _ => Except.error "x".data)
    (fun _ => "x".data) (fun _ => rfl)).1

/-- C1 counterexample: in Legacy Mode the stored template is not
checked for the single-brace filePath placeholder: a model output
without it is stored as is, and the retry-exhausted fallback stores the
user prompt verbatim, which need not contain it either. -/
theorem legacy_template_placeholder_counterexample :
    (generateInstructionTemplate "add docs".data (fun _ => Except.ok "hello".data)).1
        = "hello".data ∧
    hasInfixL legacyPlaceholder "hello".data = false ∧
    (generateInstructionTemplate "add docs".data (fun _ => Except.error "x".data)).1
        = "add docs".data ∧
    hasInfixL legacyPlaceholder "add docs".data = false := by
  decide

/-- C1 amended: in Rule Mode the stored template always contains the
double-brace file placeholder, whatever the completion transport does:
a model output containing it is stored, one without it is wrapped with
the lead-in sentence embedding it, and the retry-exhausted fallback is
the lead-in sentence plus the rule text.  Legacy Mode gives no such
guarantee (see the counterexample). -/
theorem ruleMode_template_contains_placeholder (processingRule : List Char)
    (op : Nat → Except (List Char) (List Char)) :
    hasInfixL filePlaceholder (generateInstructionTemplateFromRule processingRule op).1
      = true := by
  have hlead : hasInfixL filePlaceholder ruleModeLeadIn = true := by decide
  unfold generateInstructionTemplateFromRule
  rcases hr : callWithRetry op 3 1000 with ⟨res, delays⟩
  cases res with
  | ok template =>
    by_cases hin : hasInfixL filePlaceholder (trimChars template) = true
    · simp [hin]
    · simp only [Bool.not_eq_true] at hin
      simp [hin]
      exact hasInfixL_append_left _ _ _ hlead
  | error e =>
    simp
    exact hasInfixL_append_left _ _ _ hlead

/-- C7 counterexample: the skip test of the line heuristic is
case-sensitive: a line containing the lowercase word file is not
skipped by the code (which looks for the capitalized File) yet the
claim says it is skipped. -/
theorem strategy4_file_word_counterexample :
    strategy4Line "myfile.ts".data = some "myfile.ts".data ∧
    claimStrategy4Line "myfile.ts".data = none := by
  decide

/-- C7 amended: for every input line of the heuristic, the code behaves
exactly as the claim states once the skip word is corrected to the
case-sensitive capitalized File (next to the Chinese word): blank,
over-300-character, File-containing and comment-or-quote-prefixed lines
are skipped; a remaining line is kept exactly when it contains a path
separator or ends in a recognized extension, the kept value being the
line with a leading ordinal and surrounding quotes stripped (and
dropped when stripping leaves nothing). -/
theorem strategy4Line_amended (line : List Char) :
    strategy4Line line = amendedStrategy4Line line := by
  have hskip : ∀ t, amendedSkipRules.any (fun r => r t) = isSkippedLine t := by
    intro t
    simp [amendedSkipRules, isSkippedLine, Bool.or_assoc]
  simp only [strategy4Line, amendedStrategy4Line, hskip]

/-- C8: parseRules is total by construction; an input whose trimmed
lines contain a discovery-marker line and a processing-marker line
yields Rule Mode with each rule equal to the first such line with the
marker dropped and whitespace trimmed; otherwise Legacy Mode with the
raw input as the original prompt. -/
theorem parseRules_spec (input : List Char) :
    (∀ d p,
      ((splitOnChar '\n' input).map trimChars).find? (hasPrefixL ['#']) = some d →
      ((splitOnChar '\n' input).map trimChars).find? (hasPrefixL ['$']) = some p →
      parseRules input
        = { isRuleMode := true
            discoveryRule := some (trimChars (d.drop 1))
            processingRule := some (trimChars (p.drop 1)) }) ∧
    (((splitOnChar '\n' input).map trimChars).find? (hasPrefixL ['#']) = none ∨
        ((splitOnChar '\n' input).map trimChars).find? (hasPrefixL ['$']) = none →
      parseRules input = { isRuleMode := false, originalPrompt := some input }) := by
  constructor
  · intro d p hd hp
    simp [parseRules, hd, hp]
  · intro h
    rcases h with h | h
    · cases hp : ((splitOnChar '\n' input).map trimChars).find? (hasPrefixL ['$']) <;>
        simp [parseRules, h, hp]
    · cases hd : ((splitOnChar '\n' input).map trimChars).find? (hasPrefixL ['#']) <;>
        simp [parseRules, h, hd]

/-- C8 witness: a concrete Rule Mode input with both marker lines. -/
theorem parseRules_spec_witness :
    parseRules "#a\nx\n$ b ".data
      = { isRuleMode := true
          discoveryRule := some (trimChars ("#a".data.drop 1))
          processingRule := some (trimChars ("$ b".data.drop 1)) } :=
  (parseRules_spec "#a\nx\n$ b ".data).1 "#a".data "$ b".data (by decide) (by decide)

/-- C9: while a run is being processed (the processing guard is held),
a second start call returns immediately with the whole service state
unchanged, whatever the start body would have done: the call is
rejected, not queued, and the active run configuration and every
sub-task are untouched. -/
theorem startControlTask_rejects_when_processing (run : ControlState → ControlState)
    (s : ControlState) (h : s.isProcessing = true) :
    startControlTask run s = s ∧
    (startControlTask run s).currentTask = s.currentTask ∧
    getSubTasks (startControlTask run s) = getSubTasks s := by
  have heq : startControlTask run s = s := by simp [startControlTask, h]
  exact ⟨heq, by rw [heq], by rw [heq]⟩

/-- C9 witness: a second start against the concrete active sample run,
with a body that would discard the run were it allowed to execute. -/
theorem startControlTask_rejects_witness :
    startControlTask reset sampleState = sampleState :=
  (startControlTask_rejects_when_processing reset sampleState rfl).1

end Control

namespace Control

/-- C6: toggling a PENDING enabled sub-task disables it (CANCELLED,
enabled false, end time stamped); toggling it again restores the
schedulable state (PENDING, enabled, error and end time cleared);
toggling a RUNNING sub-task changes nothing at all. -/
theorem toggleTaskEnabled_round_trip (s : ControlState) (tid : Nat) (t : SubTask)
    (n1 n2 : Nat) (ht : findInState tid s = some t) :
    (t.status = SubTaskStatus.pending → t.enabled = true →
      findInState tid (toggleTaskEnabled tid n1 s)
        = some { t with
                 enabled := false
                 status := SubTaskStatus.cancelled
                 endTime := some n1 } ∧
      findInState tid (toggleTaskEnabled tid n2 (toggleTaskEnabled tid n1 s))
        = some { t with
                 enabled := true
                 status := SubTaskStatus.pending
                 error := none
                 endTime := none }) ∧
    (t.status = SubTaskStatus.running → toggleTaskEnabled tid n1 s = s) := by
  cases hc : s.currentTask with
  | none => simp [findInState, hc] at ht
  | some cfg =>
    have ht2 : findById tid cfg.subTasks = some t := by
      simpa [findInState, hc] using ht
    have hid : t.id = tid := findById_id tid cfg.subTasks t ht2
    constructor
    · intro hp he
      have h1 : toggleTaskEnabled tid n1 s
          = { s with
              currentTask := some { cfg with
                subTasks := replaceFirstById tid
                  { t with
                    enabled := false
                    status := SubTaskStatus.cancelled
                    endTime := some n1 } cfg.subTasks }
              emitted := s.emitted ++ [ControlTaskStatus.processing] } := by
        simp [toggleTaskEnabled, hc, ht2, hp, he]
      have hfind1 : findById tid (replaceFirstById tid
          { t with
            enabled := false
            status := SubTaskStatus.cancelled
            endTime := some n1 } cfg.subTasks)
          = some { t with
                   enabled := false
                   status := SubTaskStatus.cancelled
                   endTime := some n1 } :=
        findById_replaceFirstById tid _ cfg.subTasks (by rw [ht2]; rfl) hid
      have hstate1 : findInState tid (toggleTaskEnabled tid n1 s)
          = some { t with
                   enabled := false
                   status := SubTaskStatus.cancelled
                   endTime := some n1 } := by
        rw [h1]
        simpa [findInState] using hfind1
      refine ⟨hstate1, ?_⟩
      have hfind2 : findById tid (replaceFirstById tid
          { t with
            enabled := true
            status := SubTaskStatus.pending
            error := none
            endTime := none }
          (replaceFirstById tid
            { t with
              enabled := false
              status := SubTaskStatus.cancelled
              endTime := some n1 } cfg.subTasks))
          = some { t with
                   enabled := true
                   status := SubTaskStatus.pending
                   error := none
                   endTime := none } :=
        findById_replaceFirstById tid _ _ (by rw [hfind1]; rfl) hid
      rw [h1]
      simp only [toggleTaskEnabled, findInState, hfind1]
      simpa [findInState] using hfind2
    · intro hrun
      simp [toggleTaskEnabled, hc, ht2, hrun]

/-- C6 witness: the round trip on the concrete sample run. -/
theorem toggleTaskEnabled_round_trip_witness :
    findInState 1 (toggleTaskEnabled 1 5 sampleState)
      = some { sampleTask with
               enabled := false
               status := SubTaskStatus.cancelled
               endTime := some 5 } :=
  ((toggleTaskEnabled_round_trip sampleState 1 sampleTask 5 9 (by decide)).1 rfl rfl).1

end Control

namespace Control

/-- C3 counterexample: on the concrete sample run, cancel emits the
CANCELLED aggregate status, but the next continueNext call is not a
no-op: it runs the completion sequence and emits the aggregate status
COMPLETED, which differs from CANCELLED. -/
theorem cancel_then_continue_counterexample :
    (continueNextTask (ExternalOutcome.succeeded 0) 7 (cancelTask 5 sampleState)).emitted
      = [ControlTaskStatus.cancelled, ControlTaskStatus.completed] ∧
    ControlTaskStatus.completed ≠ ControlTaskStatus.cancelled := by
  decide

/-- C3 amended: cancel on an active run forces every PENDING or RUNNING
sub-task to CANCELLED with enabled false and pushes the aggregate
status CANCELLED; a subsequent continueNext changes no sub-task state,
but instead of being a no-op it runs the completion sequence and emits
the aggregate status COMPLETED (only reset discards the run). -/
theorem cancelTask_then_continueNext (s : ControlState) (cfg : ControlTaskConfig)
    (now now2 : Nat) (o : ExternalOutcome) (hc : s.currentTask = some cfg) :
    getSubTasks (cancelTask now s) = some (cfg.subTasks.map (cancelSub now)) ∧
    (∀ t : SubTask,
      t.status = SubTaskStatus.pending ∨ t.status = SubTaskStatus.running →
      (cancelSub now t).status = SubTaskStatus.cancelled ∧
        (cancelSub now t).enabled = false) ∧
    (cancelTask now s).emitted = s.emitted ++ [ControlTaskStatus.cancelled] ∧
    getSubTasks (continueNextTask o now2 (cancelTask now s))
      = getSubTasks (cancelTask now s) ∧
    (continueNextTask o now2 (cancelTask now s)).emitted
      = s.emitted ++ [ControlTaskStatus.cancelled, ControlTaskStatus.completed] := by
  have h1 : cancelTask now s
      = { s with
          currentTask := some { cfg with subTasks := cfg.subTasks.map (cancelSub now) }
          emitted := s.emitted ++ [ControlTaskStatus.cancelled]
          isProcessing := false
          currentSubTaskIndex := -1
          shouldCancel := false } := by
    simp [cancelTask, hc]
  have hnone : findNextIdx { cfg with subTasks := cfg.subTasks.map (cancelSub now) } = none := by
    apply findNextIdxGo_none_of
    intro t htm
    obtain ⟨u, -, rfl⟩ := List.mem_map.mp htm
    exact isSchedulable_cancelSub now u
  have h2 : continueNextTask o now2 (cancelTask now s)
      = completeAllTasks (cancelTask now s) := by
    rw [h1]
    simp [continueNextTask, hnone]
  refine ⟨?_, ?_, ?_, ?_, ?_⟩
  · rw [h1]; rfl
  · intro t hstat
    unfold cancelSub
    rw [if_pos hstat]
    exact ⟨rfl, rfl⟩
  · rw [h1]
  · rw [h2, h1]
    rfl
  · rw [h2, h1]
    simp [completeAllTasks]

end Control

namespace Control

/-- C3 amended witness: cancel applied to the concrete sample run. -/
theorem cancelTask_then_continueNext_witness :
    getSubTasks (cancelTask 5 sampleState)
      = some (sampleCfg.subTasks.map (cancelSub 5)) :=
  (cancelTask_then_continueNext sampleState sampleCfg 5 7
    (ExternalOutcome.succeeded 0) rfl).1

/-- C5: on an active run, when the scan finds an index it is the lowest
index at or after the start index (1 in Rule Mode, 0 otherwise) whose
sub-task is enabled and PENDING, and that sub-task alone is dispatched:
in the post-state it carries the stamped start time and its resolved
status while every other sub-task is untouched.  When no such sub-task
exists the completion sequence runs, emitting the aggregate status
COMPLETED, and a further continueNext call changes no sub-task and no
stored field (the service state is a fixpoint) and leaves the aggregate
status COMPLETED (the completion snapshot is merely pushed again). -/
theorem continueNextTask_selects_lowest (s : ControlState) (cfg : ControlTaskConfig)
    (o o2 : ExternalOutcome) (n1 n2 : Nat) (hc : s.currentTask = some cfg) :
    (∀ i, findNextIdx cfg = some i →
      startIdx cfg ≤ i ∧ i < cfg.subTasks.length ∧
      (∀ t, cfg.subTasks.get? i = some t →
        t.enabled = true ∧ t.status = SubTaskStatus.pending) ∧
      (∀ j t, startIdx cfg ≤ j → j < i → cfg.subTasks.get? j = some t →
        ¬(t.enabled = true ∧ t.status = SubTaskStatus.pending)) ∧
      ((getSubTasks (continueNextTask o n1 s)).getD []).get? i
        = (cfg.subTasks.get? i).map (fun t =>
            resolveSubTask o n1 { t with
                                  status := SubTaskStatus.running
                                  startTime := some n1 }) ∧
      (∀ j, j ≠ i →
        ((getSubTasks (continueNextTask o n1 s)).getD []).get? j
          = cfg.subTasks.get? j)) ∧
    (findNextIdx cfg = none →
      getSubTasks (continueNextTask o n1 s) = some cfg.subTasks ∧
      (continueNextTask o n1 s).emitted
        = s.emitted ++ [ControlTaskStatus.completed] ∧
      coreOf (continueNextTask o2 n2 (continueNextTask o n1 s))
        = coreOf (continueNextTask o n1 s) ∧
      getSubTasks (continueNextTask o2 n2 (continueNextTask o n1 s))
        = some cfg.subTasks ∧
      (continueNextTask o2 n2 (continueNextTask o n1 s)).emitted
        = s.emitted ++ [ControlTaskStatus.completed, ControlTaskStatus.completed]) := by
  constructor
  · intro i hfind
    obtain ⟨-, hstart, hlen, hpred, hmin⟩ :=
      findNextIdxGo_some isSchedulable (startIdx cfg) cfg.subTasks 0 i hfind
    simp only [Nat.sub_zero] at hlen hpred hmin
    have hcont : continueNextTask o n1 s = processSingleTaskAtIndex i o n1 s := by
      simp [continueNextTask, hc, hfind]
    cases hget : cfg.subTasks.get? i with
    | none =>
      exfalso
      rw [List.get?_eq_none] at hget
      omega
    | some t =>
      have hsched : isSchedulable t = true := hpred t hget
      have hten : t.enabled = true ∧ t.status = SubTaskStatus.pending := by
        simpa [isSchedulable] using hsched
      have hsub : getSubTasks (processSingleTaskAtIndex i o n1 s)
          = some (cfg.subTasks.set i
              (resolveSubTask o n1 { t with
                                     status := SubTaskStatus.running
                                     startTime := some n1 })) := by
        simp only [processSingleTaskAtIndex, hc, hget]
        split
        · rfl
        · simp [completeAllTasks, getSubTasks]
      refine ⟨hstart, hlen, ?_, ?_, ?_, ?_⟩
      · intro u hu
        injection hu with hu
        exact hu ▸ hten
      · intro j u hsj hji hgetj hcontra
        have hfalse := hmin j u (Nat.zero_le j) hsj hji hgetj
        rw [isSchedulable, hcontra.1, hcontra.2] at hfalse
        simp at hfalse
      · rw [hcont, hsub]
        simp only [Option.getD_some, hget, Option.map_some]
        exact get?_set_self _ _ _ hlen
      · intro j hji
        rw [hcont, hsub]
        simp only [Option.getD_some]
        exact get?_set_other _ _ _ _ hji
  · intro hfind
    have h1 : continueNextTask o n1 s
        = { s with
            emitted := s.emitted ++ [ControlTaskStatus.completed]
            isProcessing := false
            currentSubTaskIndex := -1
            shouldCancel := false } := by
      simp [continueNextTask, hc, hfind, completeAllTasks]
    have h3 : continueNextTask o2 n2 (continueNextTask o n1 s)
        = { s with
            emitted := (s.emitted ++ [ControlTaskStatus.completed])
                ++ [ControlTaskStatus.completed]
            isProcessing := false
            currentSubTaskIndex := -1
            shouldCancel := false } := by
      rw [h1]
      simp [continueNextTask, hc, hfind, completeAllTasks]
    refine ⟨?_, ?_, ?_, ?_, ?_⟩
    · rw [h1]
      simp [getSubTasks, hc]
    · rw [h1]
    · rw [h3, h1]
      simp [coreOf]
    · rw [h3]
      simp [getSubTasks, hc]
    · rw [h3]
      simp

/-- C5 witness: the dispatch on the concrete sample run selects the
single pending sub-task at index zero. -/
theorem continueNextTask_selects_lowest_witness :
    ((getSubTasks (continueNextTask (ExternalOutcome.succeeded 3) 11 sampleState)).getD
        []).get? 0
      = (sampleCfg.subTasks.get? 0).map (fun t =>
          resolveSubTask (ExternalOutcome.succeeded 3) 11
            { t with
              status := SubTaskStatus.running
              startTime := some 11 }) :=
  (((continueNextTask_selects_lowest sampleState sampleCfg (ExternalOutcome.succeeded 3)
      (ExternalOutcome.succeeded 3) 11 11 rfl).1 0 (by decide)).2.2.2.2).1

end Control

namespace Control

/-- C10: the empty extension filter is the identity on every file
list; for a nonempty extension list the result keeps exactly the files
whose extname matches one of the given extensions case-insensitively
(both sides lowercased), and it is a sublist of the input, so the
original order is preserved. -/
theorem filterFilesByExtension_spec (files extensions : List (List Char)) :
    filterFilesByExtension files [] = files ∧
    (extensions ≠ [] →
      filterFilesByExtension files extensions
        = files.filter (fun file =>
            extensions.any (fun e => toLowerL (extnameL file) == toLowerL e)) ∧
      List.Sublist (filterFilesByExtension files extensions) files) := by
  have hpt : ∀ x : List Char,
      (extensions.map toLowerL).contains x
        = extensions.any (fun e => x == toLowerL e) := by
    intro x
    rw [List.contains_eq_any_beq, List.any_map]
    rfl
  constructor
  · simp [filterFilesByExtension]
  · intro hne
    have hempty : extensions.isEmpty = false := by
      cases extensions
      · exact absurd rfl hne
      · rfl
    have heq : filterFilesByExtension files extensions
        = files.filter (fun file =>
            extensions.any (fun e => toLowerL (extnameL file) == toLowerL e)) := by
      simp only [filterFilesByExtension, hempty, Bool.false_eq_true, if_false]
      exact List.filter_congr (fun x _ => hpt (toLowerL (extnameL x)))
    exact ⟨heq, heq ▸ List.filter_sublist files⟩

/-- C10 witness: a concrete mixed-case file list with one extension. -/
theorem filterFilesByExtension_spec_witness :
    filterFilesByExtension ["a.TS".data, "b.js".data, "c".data] [".ts".data]
      = (["a.TS".data, "b.js".data, "c".data]).filter (fun file =>
          [".ts".data].any (fun e => toLowerL (extnameL file) == toLowerL e)) :=
  ((filterFilesByExtension_spec ["a.TS".data, "b.js".data, "c".data] [".ts".data]).2
    (by decide)).1

end Control
